import Mathlib

/-!
Verification of the mhubio addressing, query and binding subsystem.

Python strings are embedded as `List Char` and Python dictionaries
(insertion-ordered, string keyed) as association lists with unique keys.
Fallible Python code (exceptions such as `ValueError`, `AssertionError`,
failed unpacking) is embedded via `Option`, with `none` standing for a
raised exception. Filesystem state is abstracted as a predicate
`Str → Bool` on absolute paths. All definitions are transcribed from the
Python sources in `mhubio/core`.
-/

namespace MHubio

/-- A Python string, embedded as its list of characters. -/
abbrev Str := List Char

/-- Does `s` start with `pre`? (Python `str.startswith`.) -/
def hasPrefixL : Str → Str → Bool
  | _, [] => true
  | [], _ :: _ => false
  | c :: s, p :: ps => c == p && hasPrefixL s ps

/-- Does `s` contain `sub` as a contiguous substring? (Python `sub in s`.) -/
def hasSubL : Str → Str → Bool
  | [], sub => hasPrefixL [] sub
  | c :: t, sub => hasPrefixL (c :: t) sub || hasSubL t sub

/-- Python `needle in hay` for strings. -/
def pyIn (needle hay : Str) : Bool := hasSubL hay needle

/-- Python `s.split(sep)` for a single-character separator `sep`. -/
def splitC (sep : Char) : Str → List Str
  | [] => [[]]
  | c :: rest =>
    if c == sep then [] :: splitC sep rest
    else
      match splitC sep rest with
      | [] => [[c]]
      | t :: ts => (c :: t) :: ts

/-- Python `s.split(sep)` for a two-character separator `[a, b]`
(non-overlapping, left to right). -/
def split2 (a b : Char) : Str → List Str
  | [] => [[]]
  | [c] => [[c]]
  | c :: d :: rest =>
    if c == a && d == b then [] :: split2 a b rest
    else
      match split2 a b (d :: rest) with
      | [] => [[c]]
      | t :: ts => (c :: t) :: ts

/-- Python `s.split(sep, maxsplit := 1)` for a single-character separator:
split at the first occurrence only. -/
def splitFirstC (sep : Char) : Str → List Str
  | [] => [[]]
  | c :: rest =>
    if c == sep then [[], rest]
    else
      match splitFirstC sep rest with
      | [] => [[c]]
      | t :: ts => (c :: t) :: ts

/-- Python `sep.join(parts)` for a single-character separator. -/
def intercalateC (sep : Char) : List Str → Str
  | [] => []
  | [p] => p
  | p :: q :: rest => p ++ sep :: intercalateC sep (q :: rest)

/-- Python `str.lower` (ASCII; all strings in play are ASCII). -/
def pyLower (s : Str) : Str := s.map Char.toLower

/-- Python `str.upper` (ASCII; all strings in play are ASCII). -/
def pyUpper (s : Str) : Str := s.map Char.toUpper

/-- Python `str.isnumeric` for ASCII strings: nonempty and all digits. -/
def isNumericL (s : Str) : Bool := !s.isEmpty && s.all Char.isDigit

/-- Decimal digits to the natural number they denote. -/
def digitsToNat (s : Str) : Nat := s.foldl (fun n c => n * 10 + (c.toNat - 48)) 0

/-- Python `int(s)` on an optionally signed decimal string; `none` models a
raised `ValueError`. -/
def pyInt : Str → Option Int
  | '-' :: rest => if isNumericL rest then some (-(digitsToNat rest : Int)) else none
  | '+' :: rest => if isNumericL rest then some (digitsToNat rest : Int) else none
  | s => if isNumericL s then some (digitsToNat s : Int) else none

/-- A Python `Dict[str, str]` embedded as an insertion-ordered association
list with unique keys (the `Meta.mdict` representation). -/
abbrev Dict := List (Str × Str)

/-- Python `d[k]` lookup returning `none` if the key is absent. -/
def dlookup : Dict → Str → Option Str
  | [], _ => none
  | (k2, v) :: rest, k => if k2 == k then some v else dlookup rest k

/-- The keys of a dictionary, in insertion order. -/
def dkeys (d : Dict) : List Str := d.map Prod.fst

/-- Python dict union in two stars notation applied to `a` then `b`:
keys of `a` keep their position (values overridden by `b` where present),
followed by the keys of `b` that are new, in order. -/
def dictUpdate (a b : Dict) : Dict :=
  a.map (fun p => (p.1, (dlookup b p.1).getD p.2)) ++
    b.filter (fun p => (dlookup a p.1).isNone)

/-- Python `d[k] = v`: override in place if the key exists, else append. -/
def dictInsert (d : Dict) (k v : Str) : Dict :=
  if (dlookup d k).isSome then d.map (fun p => if p.1 == k then (p.1, v) else p)
  else d ++ [(k, v)]

/-- Build a dictionary by successive Python assignments `d[k] = v`. -/
def dictInsertAll (d : Dict) (ps : List (Str × Str)) : Dict :=
  ps.foldl (fun acc p => dictInsert acc p.1 p.2) d

/-- `Meta.getValue` with its default of the empty string. -/
def metaGetValue (m : Dict) (k : Str) : Str := (dlookup m k).getD []

/-- `Meta.__contains__` for a single string key. -/
def metaContains (m : Dict) (k : Str) : Bool := (dlookup m k).isSome

/-- The `FileType` enumeration from `mhubio/core/FileType.py`. -/
inductive FileType where
  | NONE | NRRD | NIFTI | DICOM | DICOMSEG | RTSTRUCT
  | CSV | TXT | LOG | JSON | MHA | TIFF
  deriving DecidableEq

/-- The Python enum member name (`FileType.X.name`). -/
def FileType.name : FileType → Str
  | .NONE => "NONE".toList
  | .NRRD => "NRRD".toList
  | .NIFTI => "NIFTI".toList
  | .DICOM => "DICOM".toList
  | .DICOMSEG => "DICOMSEG".toList
  | .RTSTRUCT => "RTSTRUCT".toList
  | .CSV => "CSV".toList
  | .TXT => "TXT".toList
  | .LOG => "LOG".toList
  | .JSON => "JSON".toList
  | .MHA => "MHA".toList
  | .TIFF => "TIFF".toList

/-- Python `str(FileType.X.value)`: the enum value (`None` for `NONE`,
a lowercase string otherwise). -/
def FileType.valueStr : FileType → Str
  | .NONE => "None".toList
  | .NRRD => "nrrd".toList
  | .NIFTI => "nifti".toList
  | .DICOM => "dicom".toList
  | .DICOMSEG => "dicomseg".toList
  | .RTSTRUCT => "rtstruct".toList
  | .CSV => "csv".toList
  | .TXT => "txt".toList
  | .LOG => "log".toList
  | .JSON => "json".toList
  | .MHA => "mha".toList
  | .TIFF => "tiff".toList

/-- All `FileType` members, in declaration order. -/
def FileType.all : List FileType :=
  [.NONE, .NRRD, .NIFTI, .DICOM, .DICOMSEG, .RTSTRUCT,
   .CSV, .TXT, .LOG, .JSON, .MHA, .TIFF]

/-- Python `ftype_def in FileType.__members__` plus the member access
`FileType[ftype_def]`, as one partial lookup. -/
def FileType.ofName (s : Str) : Option FileType :=
  FileType.all.find? (fun ft => ft.name == s)

/-- A `DataType` value: a `FileType` together with a `Meta` tag dictionary
(`mhubio/core/DataType.py`). -/
structure DataTypeM where
  ftype : FileType
  meta : Dict
  deriving DecidableEq

/-- `DataType.toString`: the canonical string
`FTYPE:key1=val1:key2=val2` (always with the colon after the type name). -/
def DataTypeM.toStr (t : DataTypeM) : Str :=
  t.ftype.name ++ ':' :: intercalateC ':' (t.meta.map (fun p => p.1 ++ '=' :: p.2))

/-- One `key=value` clause of `DataType.fromString`: Python unpacking
`key, value = kvp.split("=")` raises unless there are exactly two parts. -/
def kvpParse (kvp : Str) : Option (Str × Str) :=
  match splitC '=' kvp with
  | [k, v] => some (k, v)
  | _ => none

/-- `DataType.fromString`: split on colons, resolve the (uppercased) file
type name, then build the meta dictionary from the `key=value` clauses.
`none` models a raised `AssertionError` or `ValueError`. -/
def DataTypeM.fromStr (s : Str) : Option DataTypeM :=
  match splitC ':' s with
  | [] => none
  | ftypeDef :: metaDef =>
    match FileType.ofName (pyUpper ftypeDef) with
    | none => none
    | some ft =>
      (metaDef.mapM kvpParse).map
        (fun ps => ⟨ft, dictUpdate [] (dictInsertAll [] ps)⟩)

/-- Python `set(a) <= set(b)` for lists of strings. -/
def setSubL (a b : List Str) : Bool := a.all (fun x => b.contains x)

/-- Python `set(a) == set(b)` for lists of strings. -/
def setEqL (a b : List Str) : Bool := setSubL a b && setSubL b a

/-- Python `len(set(a) & set(b)) == 0` for lists of strings. -/
def setInterEmptyL (a b : List Str) : Bool := a.all (fun x => !b.contains x)

/-- `DataTypeQuery.evaluateMeta` from `mhubio/core/DataTypeQuery.py`,
transcribed branch by branch in source order. `rmatch` abstracts the
`re.match` library call of the `~=` branch; `none` models a raised
exception (failed tuple unpacking, failed `assert`, `int()` error, or the
final `raise`). Note: the `>=` branch of the source splits `kov` on the
separator `!=` (not `>=`), exactly as written at line 240 of the source. -/
def evaluateMeta (rmatch : Str → Str → Bool) (kov : Str) (refMeta : Dict) : Option Bool :=
  if pyIn "!=".toList kov then
    match split2 '!' '=' kov with
    | [k, v] => some (!metaContains refMeta k || metaGetValue refMeta k != v)
    | _ => none
  else if pyIn "><".toList kov then
    match split2 '>' '<' kov with
    | [k, v] =>
      if !metaContains refMeta k then some false
      else if pyIn ",".toList v && pyIn ",".toList (metaGetValue refMeta k) then
        some (setEqL (splitC ',' v) (splitC ',' (metaGetValue refMeta k)))
      else none
    | _ => none
  else if pyIn ">=".toList kov then
    match split2 '!' '=' kov with
    | [k, v] =>
      if !metaContains refMeta k then some false
      else if isNumericL v then
        (pyInt (metaGetValue refMeta k)).map (fun r => decide (r ≥ (digitsToNat v : Int)))
      else if pyIn ",".toList v then
        some (setSubL (splitC ',' v) (splitC ',' (metaGetValue refMeta k)))
      else some (pyIn v (metaGetValue refMeta k))
    | _ => none
  else if pyIn "<=".toList kov then
    match split2 '<' '=' kov with
    | [k, v] =>
      if !metaContains refMeta k then some false
      else if isNumericL v then
        (pyInt (metaGetValue refMeta k)).map (fun r => decide (r ≤ (digitsToNat v : Int)))
      else
        some (setSubL (splitC ',' (metaGetValue refMeta k)) (splitC ',' v) &&
          decide (0 < (splitC ',' (metaGetValue refMeta k)).length))
    | _ => none
  else if pyIn "<>".toList kov then
    match split2 '<' '>' kov with
    | [k, v] =>
      if !metaContains refMeta k then some false
      else if pyIn ",".toList v && pyIn ",".toList (metaGetValue refMeta k) then
        some (setInterEmptyL (splitC ',' v) (splitC ',' (metaGetValue refMeta k)))
      else none
    | _ => none
  else if pyIn "~=".toList kov then
    match split2 '~' '=' kov with
    | [k, v] =>
      if !metaContains refMeta k then some false
      else some (rmatch v (metaGetValue refMeta k))
    | _ => none
  else if pyIn "=".toList kov then
    match splitC '=' kov with
    | [k, v] =>
      if !metaContains refMeta k then some false
      else if v == "*".toList then some true
      else some ((splitC '|' v).any (fun vo => pyLower (metaGetValue refMeta k) == pyLower vo))
    | _ => none
  else if pyIn ">".toList kov then
    match splitC '>' kov with
    | [k, v] =>
      if !metaContains refMeta k then some false
      else if isNumericL v && isNumericL (metaGetValue refMeta k) then
        some (decide (digitsToNat (metaGetValue refMeta k) > digitsToNat v))
      else none
    | _ => none
  else if pyIn "<".toList kov then
    match splitC '<' kov with
    | [k, v] =>
      if !metaContains refMeta k then some false
      else if isNumericL v && isNumericL (metaGetValue refMeta k) then
        some (decide (digitsToNat (metaGetValue refMeta k) < digitsToNat v))
      else none
    | _ => none
  else none

/-- Python `all(evaluateMeta(md, ref_meta) for md in metas_def)`, with the
generator's left-to-right short-circuit and exception propagation. -/
def metasAll (rmatch : Str → Str → Bool) : List Str → Dict → Option Bool
  | [], _ => some true
  | m :: rest, rm =>
    (evaluateMeta rmatch m rm).bind (fun b => if b then metasAll rmatch rest rm else some false)

/-- The single-expression part of `DataTypeQuery.evaluate` (source lines
164-201) for a `DataType` candidate: split off the file-type set, match it
(`any` is a wildcard), then require all `key-op-value` clauses to pass. -/
def evaluateSingle (rmatch : Str → Str → Bool) (ref : DataTypeM) (expr : Str) : Option Bool :=
  match splitC ':' expr with
  | [] => none
  | ftypeDef :: metasDef =>
    if !((splitC '|' (pyLower ftypeDef)).contains (pyLower ref.ftype.valueStr))
        && pyLower ftypeDef != "any".toList then
      some false
    else metasAll rmatch metasDef ref.meta

/-- `DataTypeQuery.tokenize`: split on spaces at parenthesis depth zero;
parentheses and nested spaces are kept inside the current token. -/
def tokenizeAux (lvl : Int) : Str → List Str
  | [] => [[]]
  | c :: rest =>
    let lvl2 := if c == '(' then lvl + 1 else if c == ')' then lvl - 1 else lvl
    if c == ' ' && lvl == 0 then [] :: tokenizeAux lvl rest
    else
      match tokenizeAux lvl2 rest with
      | [] => [[c]]
      | t :: ts => (c :: t) :: ts

/-- `DataTypeQuery.tokenize` entry point. -/
def tokenize (q : Str) : List Str := tokenizeAux 0 q

/-- Python list indexing `l[i]` with negative-index wrap-around;
`none` models an `IndexError`. -/
def pyGet (l : List Str) (i : Int) : Option Str :=
  if i ≥ 0 then l.get? i.toNat
  else if (l.length : Int) + i ≥ 0 then l.get? ((l.length : Int) + i).toNat else none

/-- Python list slicing `l[:i]` (clamping, negative-index wrap-around). -/
def pyTake (l : List Str) (i : Int) : List Str :=
  if i ≥ 0 then l.take i.toNat else l.take ((l.length : Int) + i).toNat

mutual

/-- The `while 'NOT' in tokens` reduction loop of `DataTypeQuery.parse`:
replace the leftmost `NOT x` by the negated literal, repeatedly. `ae`
evaluates an atomic (non boolean-literal, non group) token. -/
def notLoop (ae : Str → Option Bool) : Nat → List Str → Option (List Str)
  | 0, _ => none
  | fuel+1, toks =>
    match toks.findIdx? (· == "NOT".toList) with
    | none => some toks
    | some i =>
      match toks.get? (i+1) with
      | none => none
      | some right =>
        (evaluateT ae fuel right).bind fun b =>
          notLoop ae fuel
            (toks.take i ++ [if b then "FALSE".toList else "TRUE".toList] ++ toks.drop (i+2))

/-- The `while 'AND' in tokens` reduction loop of `DataTypeQuery.parse`:
replace the leftmost `x AND y` by a literal, short-circuiting on the left
operand, repeatedly. -/
def andLoop (ae : Str → Option Bool) : Nat → List Str → Option (List Str)
  | 0, _ => none
  | fuel+1, toks =>
    match toks.findIdx? (· == "AND".toList) with
    | none => some toks
    | some i =>
      match pyGet toks ((i : Int) - 1), toks.get? (i+1) with
      | some left, some right =>
        (evaluateT ae fuel left).bind fun bl =>
        (if bl then evaluateT ae fuel right else some false).bind fun b =>
          andLoop ae fuel
            (pyTake toks ((i : Int) - 1) ++ [if b then "TRUE".toList else "FALSE".toList]
              ++ toks.drop (i+2))
      | _, _ => none

/-- The `while 'OR' in tokens` reduction loop of `DataTypeQuery.parse`. -/
def orLoop (ae : Str → Option Bool) : Nat → List Str → Option (List Str)
  | 0, _ => none
  | fuel+1, toks =>
    match toks.findIdx? (· == "OR".toList) with
    | none => some toks
    | some i =>
      match pyGet toks ((i : Int) - 1), toks.get? (i+1) with
      | some left, some right =>
        (evaluateT ae fuel left).bind fun bl =>
        (if bl then some true else evaluateT ae fuel right).bind fun b =>
          orLoop ae fuel
            (pyTake toks ((i : Int) - 1) ++ [if b then "TRUE".toList else "FALSE".toList]
              ++ toks.drop (i+2))
      | _, _ => none

/-- `DataTypeQuery.parse`: tokenize, run the NOT, AND, OR reduction loops
in that order, then evaluate the single remaining token (the final
`assert len(tokens) == 1` is modelled by `none` otherwise). -/
def parseQ (ae : Str → Option Bool) : Nat → Str → Option Bool
  | 0, _ => none
  | fuel+1, q =>
    (notLoop ae fuel (tokenize q)).bind fun t1 =>
    (andLoop ae fuel t1).bind fun t2 =>
    (orLoop ae fuel t2).bind fun t3 =>
    match t3 with
    | [t] => evaluateT ae fuel t
    | _ => none

/-- `DataTypeQuery.evaluate`: literal `TRUE`/`FALSE` tokens, parenthesized
groups (recursing into `parse` on the inner text), else a single atomic
expression evaluated by `ae`. -/
def evaluateT (ae : Str → Option Bool) : Nat → Str → Option Bool
  | 0, _ => none
  | fuel+1, expr =>
    if expr == "TRUE".toList then some true
    else if expr == "FALSE".toList then some false
    else if hasPrefixL expr ['('] && hasPrefixL expr.reverse [')'] then
      parseQ ae fuel (expr.drop 1 |>.dropLast)
    else ae expr

end

/-- `DataTypeQuery.parse` on a query string, for an arbitrary atomic-token
evaluator `ae`. The fuel is generous: every reduction shortens the token
list and every group recursion shortens the query, so `q.length + 2`
never runs out on queries the source terminates on. -/
def dtqParse (ae : Str → Option Bool) (q : Str) : Option Bool :=
  parseQ ae (q.length + 2) q

/-- `DataTypeQuery.exec` for a `DataType` candidate: atomic tokens are
evaluated against the candidate by `evaluateSingle`. -/
def dtqExec (rmatch : Str → Str → Bool) (q : Str) (ref : DataTypeM) : Option Bool :=
  dtqParse (evaluateSingle rmatch ref) q

/-- An `InstanceData` as seen by input resolution: its `DataType` and its
`confirmed` flag. -/
structure InstanceDataM where
  dtype : DataTypeM
  confirmed : Bool
  deriving DecidableEq

/-- `InstanceDataCollection.filter` on a `DataTypeQuery` (string) argument:
the list comprehension keeps `d` iff `(d.confirmed or not confirmed_only)
and dtq.exec(d.type)`, left to right with short-circuit. -/
def idcFilterDTQ (rmatch : Str → Str → Bool) (q : Str) (confirmedOnly : Bool) :
    List InstanceDataM → Option (List InstanceDataM)
  | [] => some []
  | d :: rest =>
    if d.confirmed || !confirmedOnly then
      (dtqExec rmatch q d.dtype).bind fun b =>
        (idcFilterDTQ rmatch q confirmedOnly rest).map fun l => if b then d :: l else l
    else idcFilterDTQ rmatch q confirmedOnly rest

/-- `InstanceDataCollection.first` on a query string: `filter` with the
default `confirmed_only = False`, raise `MHubMissingDataError` (`none`) if
nothing matched, else return element 0. -/
def idcFirst (rmatch : Str → Str → Bool) (q : Str) (ds : List InstanceDataM) :
    Option InstanceDataM :=
  (idcFilterDTQ rmatch q false ds).bind fun l =>
    match l with
    | [] => none
    | d :: _ => some d

/-- The input binding of the `IO.Input` wrapper: the keyword argument bound
to the step body is `instance.data.first(_dtype)`. -/
def ioInputResolve (rmatch : Str → Str → Bool) (q : Str) (ds : List InstanceDataM) :
    Option InstanceDataM :=
  idcFirst rmatch q ds

/-- The input binding of the `IO.Inputs` wrapper: the keyword argument bound
to the step body is `instance.data.filter(_dtype)`. -/
def ioInputsResolve (rmatch : Str → Str → Bool) (q : Str) (ds : List InstanceDataM) :
    Option (List InstanceDataM) :=
  idcFilterDTQ rmatch q false ds

/-- Python `s.rstrip(c)` for a single character. -/
def rstripC (c : Char) (s : Str) : Str := (s.reverse.dropWhile (· == c)).reverse

/-- Index of the last occurrence of `c` in `s` (Python `s.rfind(c)` when
present). -/
def rfindChar (c : Char) (s : Str) : Option Nat :=
  match s.reverse.findIdx? (· == c) with
  | none => none
  | some j => some (s.length - 1 - j)

/-- `os.path.join(a, b)` on POSIX (`os.sep` is the slash): an absolute `b`
wins; otherwise insert a separator unless `a` is empty or ends in one. -/
def pyJoin (a b : Str) : Str :=
  if hasPrefixL b ['/'] then b
  else if a.isEmpty || a.getLast? == some '/' then a ++ b
  else a ++ '/' :: b

/-- `os.path.split(p)` on POSIX: split after the last separator, then strip
trailing separators from the head unless it is all separators. -/
def pySplitPath (p : Str) : Str × Str :=
  let i := match rfindChar '/' p with
    | none => 0
    | some j => j + 1
  let head := p.take i
  let tail := p.drop i
  if head.isEmpty || head.all (· == '/') then (head, tail)
  else (rstripC '/' head, tail)

/-- A `DirectoryChain` node (`mhubio/core/DirectoryChain.py`): a relative
path segment, an optional base and an optional parent node. -/
inductive DCTree where
  | mk (path : Str) (base : Option Str) (parent : Option DCTree)

/-- The node's `path` field. -/
def DCTree.path : DCTree → Str
  | .mk p _ _ => p

/-- The node's `base` field. -/
def DCTree.base : DCTree → Option Str
  | .mk _ b _ => b

/-- The node's `parent` field. -/
def DCTree.parent : DCTree → Option DCTree
  | .mk _ _ par => par

/-- `DirectoryChain.abspath`: `join(base, path)` if a base is set, else
`join(parent.abspath, path)` if a parent is set, else `path`. -/
def DCTree.abspath : DCTree → Str
  | .mk p (some b) _ => pyJoin b p
  | .mk p none (some par) => pyJoin par.abspath p
  | .mk p none none => p

/-- `DirectoryChain.isEntrypoint`:
`self.base is not None or self.path[:1] == os.sep`. -/
def DCTree.isEntrypoint (t : DCTree) : Bool :=
  t.base.isSome || t.path.take 1 == ['/']

/-- The directory chain of an `InstanceDataBundle` created under a parent
(`InstanceDataBundle.__init__` passes `path=ref, base=None,
parent=parent.dc`). -/
def bundleDC (parentDC : DCTree) (ref : Str) : DCTree := .mk ref none (some parentDC)

/-- The directory chain of an `InstanceData` whose bundle has been set (the
`bundle` setter calls `self.dc.setParent(bundle.dc)`; path and base come
from `InstanceData.__init__`). -/
def dataDC (bdc : DCTree) (path : Str) : DCTree := .mk path none (some bdc)

/-- The collision predicate of `InstanceData.__init__` /
`_increment_path`: the candidate `dc.path` resolves (through the fixed
base and parent, abstracted by `absOf`) to a path that exists on disk
(`fsExists`) or is the `abspath` of another data of the same instance
(`used`). -/
def incCollides (fsExists used : Str → Bool) (absOf : Str → Str) (p : Str) : Bool :=
  fsExists (absOf p) || used (absOf p)

/-- The candidate path of attempt `i` in `InstanceData._increment_path`:
insert an underscore and the counter before the (first-dot) extension of
the original file name, under the original parent directory. -/
def incName (pparent pfname : Str) (pfext : Option Str) (i : Nat) : Str :=
  pyJoin pparent
    (pfname ++ '_' :: (Nat.toDigits 10 i) ++ (match pfext with
      | some e => '.' :: e
      | none => []))

/-- The `while` loop of `InstanceData._increment_path`, with the counter
`i` made explicit and the remaining budget as fuel: on a collision the
counter is incremented and the path rewritten, and once `i` exceeds 100
(fuel exhausted) the constructor raises (`none`). -/
def incAux (coll : Str → Bool) (mk2 : Nat → Str) : Nat → Nat → Str → Option Str
  | 0, _, _ => none
  | fuel+1, i, cur =>
    if coll cur then incAux coll mk2 fuel (i+1) (mk2 (i+1)) else some cur

/-- `InstanceData._increment_path` on the data's current `dc.path`:
split off the file name, split the name at its first dot, then run the
retry loop (at most the names `_1` .. `_100` are tried). -/
def incrementPath (fsExists used : Str → Bool) (absOf : Str → Str) (path0 : Str) :
    Option Str :=
  let ps := pySplitPath path0
  let nameParts := splitFirstC '.' ps.2
  let pfname := nameParts.headD []
  let pfext := match nameParts with
    | _ :: e :: _ => some e
    | _ => none
  incAux (incCollides fsExists used absOf) (incName ps.1 pfname pfext) 101 0 path0

/-- The auto-increment trigger in `InstanceData.__init__`: with
`auto_increment=True` the path is rewritten only when the computed
absolute path collides. -/
def autoIncrement (fsExists used : Str → Bool) (absOf : Str → Str) (path0 : Str) :
    Option Str :=
  if incCollides fsExists used absOf path0 then
    incrementPath fsExists used absOf path0
  else some path0

/-- A heap of `Meta` objects: object ids index into the list of `mdict`
mappings. Mutation of a `Meta` receiver is explicit state passing on the
store. -/
abbrev Store := List Dict

/-- Read an object's `mdict` from the store. -/
def storeGet (σ : Store) (i : Nat) : Dict := (σ.get? i).getD []

/-- Overwrite an object's `mdict` in the store. -/
def storeSet (σ : Store) (i : Nat) (d : Dict) : Store := σ.set i d

/-- The argument shapes `Meta.ext` accepts: a plain dict, another `Meta`
object (by reference), or a list of `Meta` objects (by reference). -/
inductive ExtArg where
  | dict (d : Dict)
  | metaRef (j : Nat)
  | metaList (js : List Nat)

/-- `Meta.ext`: in-place right-biased merge into the receiver `self`
(`self.mdict = star-star union`, once per list element in the list case),
returning the receiver itself. -/
def metaExt (σ : Store) (self : Nat) : ExtArg → Store × Nat
  | .dict d => (storeSet σ self (dictUpdate (storeGet σ self) d), self)
  | .metaRef j => (storeSet σ self (dictUpdate (storeGet σ self) (storeGet σ j)), self)
  | .metaList js =>
    (js.foldl (fun σ2 j => storeSet σ2 self (dictUpdate (storeGet σ2 self) (storeGet σ2 j))) σ,
      self)

/-- Allocation of a fresh empty `Meta()` object. -/
def metaNew (σ : Store) : Store × Nat := (σ ++ [[]], σ.length)

/-- `Meta.__add__`: `Meta().ext(self).ext(o)` — allocate a fresh `Meta`,
merge the receiver into it, then merge the argument into it. -/
def metaAdd (σ : Store) (self : Nat) (o : ExtArg) : Store × Nat :=
  let alloc := metaNew σ
  let e1 := metaExt alloc.1 alloc.2 (.metaRef self)
  metaExt e1.1 e1.2 o

/-- The mapping that a right-biased merge of `m` with the entries of `arg`
(read from store `σ`) must produce. -/
def extResultSpec (σ : Store) (m : Dict) : ExtArg → Dict
  | .dict d => dictUpdate m d
  | .metaRef j => dictUpdate m (storeGet σ j)
  | .metaList js => js.foldl (fun acc j => dictUpdate acc (storeGet σ j)) m

/-- `arg` only references objects present in the store `σ`. -/
def argRefsValid (σ : Store) : ExtArg → Prop
  | .dict _ => True
  | .metaRef j => j < σ.length
  | .metaList js => ∀ j ∈ js, j < σ.length

/-- `arg` does not reference the object `self` from inside a list (the one
aliasing shape under which the source reads a partially updated receiver). -/
def argAvoids (self : Nat) : ExtArg → Prop
  | .dict _ => True
  | .metaRef _ => True
  | .metaList js => self ∉ js

/-- An `InstanceDataBundle` as seen by ownership resolution: the identity
of the instance it belongs to. -/
structure BundleM where
  inst : Nat
  deriving DecidableEq

/-- A sibling `InstanceData` passed as the `data` argument: its (possibly
still unset) instance and its optional bundle. -/
structure SiblingM where
  inst : Option Nat
  bnd : Option BundleM
  deriving DecidableEq

/-- Who ends up owning a freshly constructed `InstanceData`. -/
inductive OwnerM where
  | viaBundle (b : BundleM)
  | viaInstance (i : Nat)
  | unlinked
  deriving DecidableEq

/-- The owner-resolution and sanity-check logic of `InstanceData.__init__`
(source lines 33-45): the linking branch chain
`bundle > data.bundle > instance > data.instance` followed by the three
consistency `assert`s. `none` models a raised `AssertionError` (including
the one inside the `Instance.instance` property when a sibling without an
instance is dereferenced). -/
def resolveOwner (bundle? : Option BundleM) (inst? : Option Nat) (data? : Option SiblingM) :
    Option OwnerM := do
  let owner ←
    match bundle? with
    | some b => some (OwnerM.viaBundle b)
    | none =>
      match data? with
      | some d =>
        match d.bnd with
        | some db => some (OwnerM.viaBundle db)
        | none =>
          match inst? with
          | some i => some (OwnerM.viaInstance i)
          | none =>
            match d.inst with
            | some i => some (OwnerM.viaInstance i)
            | none => none
      | none =>
        match inst? with
        | some i => some (OwnerM.viaInstance i)
        | none => some OwnerM.unlinked
  match bundle?, inst? with
  | some b, some i => if b.inst = i then some () else none
  | _, _ => some ()
  match data?, inst? with
  | some d, some i =>
    match d.inst with
    | some di => if di = i then some () else none
    | none => none
  | _, _ => some ()
  match data?, bundle? with
  | some d, some b =>
    match d.inst with
    | some di => if di = b.inst then some () else none
    | none => none
  | _, _ => some ()
  pure owner

/-- An `InstanceData` as seen by output confirmation: its resolved
absolute path and its `confirmed` flag. -/
structure FileDataM where
  abspath : Str
  confirmed : Bool
  deriving DecidableEq

/-- `InstanceData.confirm`: set the flag (the only mutator of
`_confirmed`; there is no way back to `False`). -/
def confirmData (d : FileDataM) : FileDataM := { d with confirmed := true }

/-- The output-confirmation tail of the `IO.Output` wrapper (source lines
303-304): after the step body returned, confirm iff the path exists. -/
def ioOutputConfirm (fsExists : Str → Bool) (d : FileDataM) : FileDataM :=
  if fsExists d.abspath then confirmData d else d

/-- The per-file confirmation logic of `DataHandler.import_yml` (source
lines 150-160) applied to a freshly constructed data `d` for a snapshot
record whose stored flag is `recConfirmed`; `none` models the failed
`assert os.path.exists(...)`. -/
def importConfirm (fsExists : Str → Bool) (checkFiles confirmFiles recConfirmed : Bool)
    (d : FileDataM) : Option FileDataM :=
  if confirmFiles then some (if fsExists d.abspath then confirmData d else d)
  else if recConfirmed then
    if checkFiles then
      if fsExists d.abspath then some (confirmData d) else none
    else some (confirmData d)
  else some d

/-- The instance iteration of the `IO.Instance` wrapper (source lines
174-198): run the body on every registered instance in order; a raised
exception (`some e`) is caught, logged for that instance, and iteration
continues with the next instance. Returns the final state and the error
log, each entry carrying the failing instance's identity. -/
def ioInstanceLoop {I σ ε : Type} (body : I → σ → σ × Option ε) :
    List I → σ → σ × List (I × ε)
  | [], s => (s, [])
  | i :: rest, s =>
    let r := body i s
    let r2 := ioInstanceLoop body rest r.1
    (r2.1, (match r.2 with
      | some e => [(i, e)]
      | none => []) ++ r2.2)

/-- Mark a path as existing (a step body creating its output file). -/
def fsWrite (fs : Str → Bool) (p : Str) : Str → Bool :=
  fun q => if q = p then true else fs q

/-- An `IO.Output`-wrapped step body: run the inner body on the filesystem;
if it raises, the exception propagates (no confirmation); if it returns,
confirm the instance's declared output iff its path now exists. State:
the filesystem plus the per-instance confirmed flag of the declared
output. -/
def ioOutputWrap {I ε : Type} [DecidableEq I]
    (inner : I → (Str → Bool) → (Str → Bool) × Option ε) (pathOf : I → Str) :
    I → ((Str → Bool) × (I → Bool)) → ((Str → Bool) × (I → Bool)) × Option ε :=
  fun i s =>
    let r := inner i s.1
    match r.2 with
    | some e => ((r.1, s.2), some e)
    | none =>
      ((r.1, if r.1 (pathOf i) then fun j => if j = i then true else s.2 j else s.2), none)

/-! ### Helper lemmas -/

theorem splitC_of_not_mem {sep : Char} {l : Str} (h : ∀ c ∈ l, ¬c = sep) :
    splitC sep l = [l] := by
  induction l with
  | nil => rfl
  | cons c t ih =>
    have hc : ¬c = sep := h c (List.mem_cons_self c t)
    have ht : splitC sep t = [t] := ih (fun x hx => h x (List.mem_cons_of_mem c hx))
    simp [splitC, hc, ht]

theorem splitC_append_cons {sep : Char} {a b : Str} (h : ∀ c ∈ a, ¬c = sep) :
    splitC sep (a ++ sep :: b) = a :: splitC sep b := by
  induction a with
  | nil => simp [splitC]
  | cons c t ih =>
    have hc : ¬c = sep := h c (List.mem_cons_self c t)
    have ht := ih (fun x hx => h x (List.mem_cons_of_mem c hx))
    simp only [List.cons_append, splitC, beq_iff_eq, if_neg hc, List.append_eq, ht]

theorem splitC_intercalateC {sep : Char} {parts : List Str} (hne : parts ≠ [])
    (h : ∀ p ∈ parts, ∀ c ∈ p, ¬c = sep) :
    splitC sep (intercalateC sep parts) = parts := by
  induction parts with
  | nil => exact absurd rfl hne
  | cons p t ih =>
    cases t with
    | nil =>
      simp only [intercalateC]
      exact splitC_of_not_mem (h p (List.mem_cons_self p []))
    | cons q r =>
      have hp := h p (List.mem_cons_self p (q :: r))
      have ht := ih (by simp) (fun x hx c hc => h x (List.mem_cons_of_mem p hx) c hc)
      simp only [intercalateC, splitC_append_cons hp, ht]

theorem kvpParse_mk {k v : Str} (hk : ∀ c ∈ k, ¬c = '=') (hv : ∀ c ∈ v, ¬c = '=') :
    kvpParse (k ++ '=' :: v) = some (k, v) := by
  simp only [kvpParse, splitC_append_cons hk, splitC_of_not_mem hv]

theorem mapM_kvpParse {m : Dict}
    (h : ∀ p ∈ m, (∀ c ∈ p.1, ¬c = '=') ∧ (∀ c ∈ p.2, ¬c = '=')) :
    (m.map (fun p => p.1 ++ '=' :: p.2)).mapM kvpParse = some m := by
  induction m with
  | nil => rfl
  | cons p t ih =>
    have hp := h p (List.mem_cons_self p t)
    have ht := ih (fun x hx => h x (List.mem_cons_of_mem p hx))
    simp only [List.map_cons, List.mapM_cons, kvpParse_mk hp.1 hp.2, ht,
      Option.bind_eq_bind, Option.some_bind, Option.map_some', Option.pure_def,
      Prod.mk.eta]

theorem dictUpdate_nil (d : Dict) : dictUpdate [] d = d := by
  simp [dictUpdate, dlookup]

theorem dlookup_eq_none_of_not_mem {d : Dict} {k : Str} (h : k ∉ dkeys d) :
    dlookup d k = none := by
  induction d with
  | nil => rfl
  | cons p t ih =>
    have h1 : ¬p.1 = k := by
      intro he; exact h (by simp [dkeys, he])
    have h2 : k ∉ dkeys t := fun hm => h (by simp [dkeys] at hm ⊢; exact Or.inr hm)
    simp [dlookup, h1, ih h2]

theorem dictInsertAll_acc {m : Dict} :
    ∀ (acc : Dict), (dkeys m).Nodup → (∀ k ∈ dkeys m, k ∉ dkeys acc) →
    dictInsertAll acc m = acc ++ m := by
  induction m with
  | nil => intro acc _ _; simp [dictInsertAll]
  | cons p t ih =>
    intro acc hnd hdisj
    have hdk : dkeys (p :: t) = p.1 :: dkeys t := by simp [dkeys]
    have hnd' : (p.1 :: dkeys t).Nodup := hdk ▸ hnd
    have hnd2 : (dkeys t).Nodup := (List.nodup_cons.mp hnd').2
    have hp1 : p.1 ∉ dkeys t := (List.nodup_cons.mp hnd').1
    have hp : p.1 ∉ dkeys acc := hdisj p.1 (hdk ▸ List.mem_cons_self p.1 (dkeys t))
    have hlook : dlookup acc p.1 = none := dlookup_eq_none_of_not_mem hp
    have step : dictInsert acc p.1 p.2 = acc ++ [p] := by
      simp [dictInsert, hlook]
    have hdisj2 : ∀ k ∈ dkeys t, k ∉ dkeys (acc ++ [p]) := by
      intro k hk hmem
      have hdka : dkeys (acc ++ [p]) = dkeys acc ++ [p.1] := by simp [dkeys]
      rw [hdka] at hmem
      rcases List.mem_append.mp hmem with hka | hkp
      · exact hdisj k (hdk ▸ List.mem_cons_of_mem p.1 hk) hka
      · have hkp1 : k = p.1 := by simpa using hkp
        exact hp1 (hkp1 ▸ hk)
    calc dictInsertAll acc (p :: t)
        = dictInsertAll (acc ++ [p]) t := by
          simp only [dictInsertAll, List.foldl_cons, step]
      _ = (acc ++ [p]) ++ t := ih (acc ++ [p]) hnd2 hdisj2
      _ = acc ++ p :: t := by simp

theorem dictInsertAll_nil {m : Dict} (hnd : (dkeys m).Nodup) :
    dictInsertAll [] m = m := by
  have := dictInsertAll_acc [] hnd (by simp [dkeys])
  simpa using this

theorem pyUpper_name (ft : FileType) : pyUpper ft.name = ft.name := by
  cases ft <;> rfl

theorem ofName_name (ft : FileType) : FileType.ofName ft.name = some ft := by
  cases ft <;> rfl

theorem name_no_colon (ft : FileType) : ∀ c ∈ ft.name, ¬c = ':' := by
  cases ft <;> decide

/-! ### Claims -/

/-- C1: `DataTypeQuery` evaluation resolves `NOT`, then `AND`, then `OR`
by repeated leftmost-first reduction, each reduction replacing the matched
tokens by a single `TRUE`/`FALSE` literal until one token remains (this is
what `notLoop`/`andLoop`/`orLoop`/`parseQ` compute); in particular, for
any candidate on which the atomic tokens `A`, `B`, `C` evaluate to false,
true, true, the query `A AND B OR C` evaluates to true. -/
theorem dtq_leftmost_reduction_A_and_B_or_C (ae : Str → Option Bool)
    (hA : ae "A".toList = some false)
    (hB : ae "B".toList = some true)
    (hC : ae "C".toList = some true) :
    dtqParse ae "A AND B OR C".toList = some true := by
  have hfun : ae = fun s =>
      if s = "A".toList then some false
      else if s = "B".toList then some true
      else if s = "C".toList then some true
      else ae s := by
    funext s
    by_cases h1 : s = "A".toList
    · subst h1; rw [if_pos rfl]; exact hA
    · rw [if_neg h1]
      by_cases h2 : s = "B".toList
      · subst h2; rw [if_pos rfl]; exact hB
      · rw [if_neg h2]
        by_cases h3 : s = "C".toList
        · subst h3; rw [if_pos rfl]; exact hC
        · rw [if_neg h3]
  rw [hfun]
  rfl

/-- Witness for C1 at a concrete atomic evaluator. -/
theorem dtq_leftmost_reduction_A_and_B_or_C_witness :
    dtqParse (fun s =>
      if s = "A".toList then some false
      else if s = "B".toList then some true
      else if s = "C".toList then some true
      else none) "A AND B OR C".toList = some true :=
  dtq_leftmost_reduction_A_and_B_or_C _ rfl rfl rfl

/-- C2 (code bug evidence): a pure `k>=v` clause always raises in
`evaluateMeta` — the `>=` branch unpacks `kov.split` on the separator `!=`
(line 240 of `DataTypeQuery.py`), which yields a single part whenever the
branch is reached, so the clause never evaluates to the documented
contains-all / numeric / substring semantics. Independent of the
candidate meta and the regex engine. -/
theorem evaluateMeta_ge_clause_raises (rmatch : Str → Str → Bool) (refMeta : Dict) :
    evaluateMeta rmatch "roi>=heart".toList refMeta = none := by
  rfl

/-- C3 counterexample: a `DataType` with an empty tag map does not
round-trip — `toString` yields `DICOM:` whose empty trailing clause makes
`fromString` raise on `key, value = kvp.split("=")`. -/
theorem fromStr_toStr_empty_meta_fails :
    DataTypeM.fromStr (DataTypeM.toStr ⟨FileType.DICOM, []⟩) = none := by
  rfl

/-- C3 (amended): for every constructible `DataType` with a nonempty tag
map whose keys and values use only characters outside `:` and `=`,
`fromString` of `toString` succeeds and returns the same `FileType` and an
equal `Meta`. -/
theorem fromStr_toStr_roundtrip (ft : FileType) (m : Dict)
    (hne : m ≠ [])
    (hnd : (dkeys m).Nodup)
    (hchars : ∀ p ∈ m, (∀ c ∈ p.1, ¬c = ':' ∧ ¬c = '=') ∧
      (∀ c ∈ p.2, ¬c = ':' ∧ ¬c = '=')) :
    DataTypeM.fromStr (DataTypeM.toStr ⟨ft, m⟩) = some ⟨ft, m⟩ := by
  have hparts : ∀ p ∈ m.map (fun p => p.1 ++ '=' :: p.2), ∀ c ∈ p, ¬c = ':' := by
    intro p hp c hc
    simp only [List.mem_map] at hp
    obtain ⟨q, hq, rfl⟩ := hp
    simp only [List.mem_append, List.mem_cons] at hc
    rcases hc with h1 | h2 | h3
    · exact ((hchars q hq).1 c h1).1
    · simp [h2]
    · exact ((hchars q hq).2 c h3).1
  have hpartsne : m.map (fun p => p.1 ++ '=' :: p.2) ≠ [] := by
    intro h; exact hne (List.map_eq_nil_iff.mp h)
  have hsplit : splitC ':' (DataTypeM.toStr ⟨ft, m⟩) =
      ft.name :: m.map (fun p => p.1 ++ '=' :: p.2) := by
    simp only [DataTypeM.toStr]
    rw [splitC_append_cons (name_no_colon ft), splitC_intercalateC hpartsne hparts]
  have hmapm : (m.map (fun p => p.1 ++ '=' :: p.2)).mapM kvpParse = some m :=
    mapM_kvpParse (fun p hp =>
      ⟨fun c hc => ((hchars p hp).1 c hc).2, fun c hc => ((hchars p hp).2 c hc).2⟩)
  simp only [DataTypeM.fromStr, hsplit, pyUpper_name, ofName_name, hmapm,
    Option.map_some', dictInsertAll_nil hnd, dictUpdate_nil]

/-- Witness for C3 (amended) at a concrete one-tag `DataType`. -/
theorem fromStr_toStr_roundtrip_witness :
    DataTypeM.fromStr (DataTypeM.toStr ⟨FileType.DICOM, [("mod".toList, "ct".toList)]⟩) =
      some ⟨FileType.DICOM, [("mod".toList, "ct".toList)]⟩ :=
  fromStr_toStr_roundtrip FileType.DICOM [("mod".toList, "ct".toList)]
    (by decide) (by decide) (by decide)

theorem idcFilterDTQ_sound (rmatch : Str → Str → Bool) (q : Str) (co : Bool) :
    ∀ (ds l : List InstanceDataM), idcFilterDTQ rmatch q co ds = some l →
    ∀ d ∈ l, d ∈ ds ∧ dtqExec rmatch q d.dtype = some true := by
  intro ds
  induction ds with
  | nil =>
    intro l h d hd
    simp only [idcFilterDTQ, Option.some.injEq] at h
    subst h
    simp at hd
  | cons a rest ih =>
    intro l h d hd
    simp only [idcFilterDTQ] at h
    by_cases hc : (a.confirmed || !co) = true
    · rw [if_pos hc] at h
      cases hb : dtqExec rmatch q a.dtype with
      | none => rw [hb] at h; simp at h
      | some b =>
        rw [hb] at h
        simp only [Option.some_bind] at h
        cases hrest : idcFilterDTQ rmatch q co rest with
        | none => rw [hrest] at h; simp at h
        | some l0 =>
          rw [hrest] at h
          simp only [Option.map_some', Option.some.injEq] at h
          subst h
          cases b with
          | true =>
            simp only [if_true] at hd
            rcases List.mem_cons.mp hd with rfl | hd0
            · exact ⟨List.mem_cons_self d rest, hb⟩
            · have := ih l0 hrest d hd0
              exact ⟨List.mem_cons_of_mem a this.1, this.2⟩
          | false =>
            simp only [Bool.false_eq_true, if_false] at hd
            have := ih l0 hrest d hd
            exact ⟨List.mem_cons_of_mem a this.1, this.2⟩
    · rw [if_neg hc] at h
      have := ih l h d hd
      exact ⟨List.mem_cons_of_mem a this.1, this.2⟩

/-- C4 counterexample: an `InstanceData` with `confirmed = False` matching
the declared query is bound as the input by the `IO.Input` resolution
(`instance.data.first(_dtype)` with the default `confirmed_only = False`). -/
theorem ioInput_binds_unconfirmed :
    ioInputResolve (fun _ _ => false) "any".toList
        [⟨⟨FileType.DICOM, []⟩, false⟩] = some ⟨⟨FileType.DICOM, []⟩, false⟩ ∧
      (⟨⟨FileType.DICOM, []⟩, false⟩ : InstanceDataM).confirmed = false :=
  ⟨rfl, rfl⟩

/-- C4 (amended): input resolution for `IO.Input` / `IO.Inputs` draws the
bound data from that instance's registered files and only from the ones
matching the query — but without restricting to confirmed files
(`InstanceDataCollection.filter` defaults `confirmed_only` to `False` and
the wrappers do not override it), so an unconfirmed file can be bound. -/
theorem ioInput_resolves_from_instance_files :
    (∀ (rmatch : Str → Str → Bool) (q : Str) (ds : List InstanceDataM) (d : InstanceDataM),
      ioInputResolve rmatch q ds = some d →
      d ∈ ds ∧ dtqExec rmatch q d.dtype = some true) ∧
    (∀ (rmatch : Str → Str → Bool) (q : Str) (ds l : List InstanceDataM),
      ioInputsResolve rmatch q ds = some l →
      ∀ d ∈ l, d ∈ ds ∧ dtqExec rmatch q d.dtype = some true) := by
  constructor
  · intro rmatch q ds d h
    simp only [ioInputResolve, idcFirst] at h
    cases hf : idcFilterDTQ rmatch q false ds with
    | none => rw [hf] at h; simp at h
    | some l =>
      rw [hf] at h
      simp only [Option.some_bind] at h
      cases l with
      | nil => simp at h
      | cons d0 t =>
        simp only [Option.some.injEq] at h
        subst h
        exact idcFilterDTQ_sound rmatch q false ds (d0 :: t) hf d0 (List.mem_cons_self d0 t)
  · intro rmatch q ds l h
    exact idcFilterDTQ_sound rmatch q false ds l h

/-- Witness for C4 (amended): the resolved unconfirmed input is a member
of the instance's files and matches the query. -/
theorem ioInput_resolves_from_instance_files_witness :
    (⟨⟨FileType.DICOM, []⟩, false⟩ : InstanceDataM) ∈
        [(⟨⟨FileType.DICOM, []⟩, false⟩ : InstanceDataM)] ∧
      dtqExec (fun _ _ => false) "any".toList
        (⟨⟨FileType.DICOM, []⟩, false⟩ : InstanceDataM).dtype = some true :=
  ioInput_resolves_from_instance_files.1 (fun _ _ => false) "any".toList
    [⟨⟨FileType.DICOM, []⟩, false⟩] ⟨⟨FileType.DICOM, []⟩, false⟩ rfl

/-- C5: the `IO.Instance` wrapper iterates all registered instances; a
body raising on one instance is caught and logged with that instance's
identity, and the later instances are still processed. Concretely, with
three instances whose `IO.Output`-wrapped bodies write their output for
the first and third instance but raise `e` on the second, the outputs of
the first and third instance end up confirmed, the second instance's
output does not, and the error log is exactly the second instance with
`e`. -/
theorem ioInstance_per_instance_isolation {I ε : Type} [DecidableEq I]
    (inner : I → (Str → Bool) → (Str → Bool) × Option ε) (pathOf : I → Str)
    (i1 i2 i3 : I) (e : ε) (fs0 : Str → Bool)
    (h12 : i1 ≠ i2) (h13 : i1 ≠ i3) (h23 : i2 ≠ i3)
    (hi1 : ∀ fs, inner i1 fs = (fsWrite fs (pathOf i1), none))
    (hi2 : ∀ fs, inner i2 fs = (fs, some e))
    (hi3 : ∀ fs, inner i3 fs = (fsWrite fs (pathOf i3), none)) :
    (ioInstanceLoop (ioOutputWrap inner pathOf) [i1, i2, i3]
        (fs0, fun _ => false)).1.2 i1 = true ∧
    (ioInstanceLoop (ioOutputWrap inner pathOf) [i1, i2, i3]
        (fs0, fun _ => false)).1.2 i3 = true ∧
    (ioInstanceLoop (ioOutputWrap inner pathOf) [i1, i2, i3]
        (fs0, fun _ => false)).1.2 i2 = false ∧
    (ioInstanceLoop (ioOutputWrap inner pathOf) [i1, i2, i3]
        (fs0, fun _ => false)).2 = [(i2, e)] := by
  refine ⟨?_, ?_, ?_, ?_⟩ <;>
    simp [ioInstanceLoop, ioOutputWrap, hi1, hi2, hi3, fsWrite,
      h12, h13, h23, h12.symm, h13.symm, h23.symm]

/-- Witness for C5 with three numbered instances, the middle one raising. -/
theorem ioInstance_per_instance_isolation_witness :
    (ioInstanceLoop
        (ioOutputWrap
          (fun (i : Nat) fs => if i = 1 then (fs, some ()) else (fsWrite fs "o".toList, none))
          (fun _ => "o".toList))
        [0, 1, 2] (fun _ => false, fun _ => false)).1.2 0 = true ∧
    (ioInstanceLoop
        (ioOutputWrap
          (fun (i : Nat) fs => if i = 1 then (fs, some ()) else (fsWrite fs "o".toList, none))
          (fun _ => "o".toList))
        [0, 1, 2] (fun _ => false, fun _ => false)).1.2 2 = true ∧
    (ioInstanceLoop
        (ioOutputWrap
          (fun (i : Nat) fs => if i = 1 then (fs, some ()) else (fsWrite fs "o".toList, none))
          (fun _ => "o".toList))
        [0, 1, 2] (fun _ => false, fun _ => false)).1.2 1 = false ∧
    (ioInstanceLoop
        (ioOutputWrap
          (fun (i : Nat) fs => if i = 1 then (fs, some ()) else (fsWrite fs "o".toList, none))
          (fun _ => "o".toList))
        [0, 1, 2] (fun _ => false, fun _ => false)).2 = [(1, ())] :=
  ioInstance_per_instance_isolation
    (fun i fs => if i = 1 then (fs, some ()) else (fsWrite fs "o".toList, none))
    (fun _ => "o".toList) 0 1 2 () (fun _ => false)
    (by decide) (by decide) (by decide)
    (fun fs => rfl) (fun fs => rfl) (fun fs => rfl)

theorem incAux_none_of_always_collides {coll : Str → Bool} {mk2 : Nat → Str}
    (h : ∀ p, coll p = true) :
    ∀ (f i : Nat) (cur : Str), incAux coll mk2 f i cur = none := by
  intro f
  induction f with
  | zero => intro i cur; rfl
  | succ f ih =>
    intro i cur
    simp only [incAux, h cur, if_true]
    exact ih (i+1) (mk2 (i+1))

/-- C6: auto-increment rewrites a colliding base filename by inserting
`_N` before the extension of the original name — a path colliding twice
yields `name_1.ext` and then `name_2.ext` — the rewrite only triggers on a
collision, and when every candidate collides the bounded retry budget
(100 attempts) is exhausted and construction fails fatally. -/
theorem autoIncrement_spec :
    (∀ (fsE used : Str → Bool) (absOf : Str → Str),
      incCollides fsE used absOf "/path/to/file.txt".toList = true →
      incCollides fsE used absOf "/path/to/file_1.txt".toList = true →
      incCollides fsE used absOf "/path/to/file_2.txt".toList = false →
      autoIncrement fsE used absOf "/path/to/file.txt".toList =
        some "/path/to/file_2.txt".toList) ∧
    (∀ (fsE used : Str → Bool) (absOf : Str → Str) (p0 : Str),
      (∀ p, incCollides fsE used absOf p = true) →
      autoIncrement fsE used absOf p0 = none) ∧
    (∀ (fsE used : Str → Bool) (absOf : Str → Str) (p0 : Str),
      incCollides fsE used absOf p0 = false →
      autoIncrement fsE used absOf p0 = some p0) := by
  refine ⟨?_, ?_, ?_⟩
  · intro fsE used absOf h0 h1 h2
    have hc : incCollides fsE used absOf = fun p =>
        if p = "/path/to/file.txt".toList then true
        else if p = "/path/to/file_1.txt".toList then true
        else if p = "/path/to/file_2.txt".toList then false
        else incCollides fsE used absOf p := by
      funext p
      by_cases e0 : p = "/path/to/file.txt".toList
      · subst e0; rw [if_pos rfl]; exact h0
      · rw [if_neg e0]
        by_cases e1 : p = "/path/to/file_1.txt".toList
        · subst e1; rw [if_pos rfl]; exact h1
        · rw [if_neg e1]
          by_cases e2 : p = "/path/to/file_2.txt".toList
          · subst e2; rw [if_pos rfl]; exact h2
          · rw [if_neg e2]
    unfold autoIncrement incrementPath
    rw [hc]
    rfl
  · intro fsE used absOf p0 h
    simp only [autoIncrement, incrementPath, h p0, if_true]
    exact incAux_none_of_always_collides h 101 0 p0
  · intro fsE used absOf p0 h
    simp only [autoIncrement, h, Bool.false_eq_true, if_false]

/-- Witness for C6 at concrete collision predicates. -/
theorem autoIncrement_spec_witness :
    autoIncrement
        (fun p => p == "/path/to/file.txt".toList || p == "/path/to/file_1.txt".toList)
        (fun _ => false) id "/path/to/file.txt".toList =
      some "/path/to/file_2.txt".toList ∧
    autoIncrement (fun _ => true) (fun _ => false) id "/path/to/file.txt".toList = none ∧
    autoIncrement (fun _ => false) (fun _ => false) id "/path/to/file.txt".toList =
      some "/path/to/file.txt".toList :=
  ⟨autoIncrement_spec.1
      (fun p => p == "/path/to/file.txt".toList || p == "/path/to/file_1.txt".toList)
      (fun _ => false) id (by decide) (by decide) (by decide),
    autoIncrement_spec.2.1 (fun _ => true) (fun _ => false) id
      "/path/to/file.txt".toList (fun p => by simp [incCollides]),
    autoIncrement_spec.2.2 (fun _ => false) (fun _ => false) id
      "/path/to/file.txt".toList (by decide)⟩

/-- C7: `DirectoryChain` resolution — the absolute path is `join(base,
path)` when a base is set, else `join(parent.abspath, path)` when a parent
is set, else `path` itself; a node is an entrypoint iff its base is set or
its path begins with the root separator; consequently a file `x.nii.gz`
added to a bundle `seg` under an instance resolving to `/data/case1`
resolves to `/data/case1/seg/x.nii.gz`. -/
theorem directoryChain_resolution :
    (∀ (p : Str) (bb : Str) (par : Option DCTree),
      (DCTree.mk p (some bb) par).abspath = pyJoin bb p) ∧
    (∀ (p : Str) (par : DCTree),
      (DCTree.mk p none (some par)).abspath = pyJoin par.abspath p) ∧
    (∀ p : Str, (DCTree.mk p none none).abspath = p) ∧
    (∀ t : DCTree,
      t.isEntrypoint = true ↔ (t.base.isSome = true ∨ hasPrefixL t.path ['/'] = true)) ∧
    (∀ idc : DCTree, idc.abspath = "/data/case1".toList →
      (dataDC (bundleDC idc "seg".toList) "x.nii.gz".toList).abspath =
        "/data/case1/seg/x.nii.gz".toList) := by
  refine ⟨fun p bb par => rfl, fun p par => rfl, fun p => rfl, ?_, ?_⟩
  · intro t
    obtain ⟨p, b, par⟩ := t
    simp only [DCTree.isEntrypoint, DCTree.base, DCTree.path, Bool.or_eq_true,
      beq_iff_eq]
    constructor
    · rintro (hb | hp)
      · exact Or.inl hb
      · right
        cases p with
        | nil => simp at hp
        | cons c rest =>
          simp only [List.take_succ_cons, List.take_zero, List.cons.injEq] at hp
          simp [hasPrefixL, hp.1]
    · rintro (hb | hp)
      · exact Or.inl hb
      · right
        cases p with
        | nil => simp [hasPrefixL] at hp
        | cons c rest =>
          simp only [hasPrefixL, Bool.and_eq_true, beq_iff_eq] at hp
          simp [hp.1]
  · intro idc h
    show pyJoin (pyJoin idc.abspath "seg".toList) "x.nii.gz".toList = _
    rw [h]
    rfl

/-- Witness for C7 at an instance node that resolves to `/data/case1`. -/
theorem directoryChain_resolution_witness :
    (dataDC (bundleDC (DCTree.mk "/data/case1".toList none none) "seg".toList)
        "x.nii.gz".toList).abspath = "/data/case1/seg/x.nii.gz".toList :=
  directoryChain_resolution.2.2.2.2 (DCTree.mk "/data/case1".toList none none) rfl

/-- C8 counterexample: `import_yml` called with `check_files=False` (and
`confirm_files=False`) confirms a snapshot record marked confirmed without
checking the disk — here the filesystem reports no file at all, yet the
flag is set. -/
theorem importConfirm_unchecked_when_check_files_false :
    importConfirm (fun _ => false) false false true ⟨"/x".toList, false⟩ =
        some ⟨"/x".toList, true⟩ ∧
      (fun _ => false : Str → Bool) "/x".toList = false :=
  ⟨rfl, rfl⟩

/-- C8 (amended): the `confirmed` flag is never reset from true to false
by the confirmation operations, and the file's existence is checked at the
moment the flag is set by the `IO.Output` confirmation step and by
snapshot import whenever `confirm_files` is true or `check_files` is true
(its default) — only `import_yml(check_files=False)` trusts the stored
flag without a filesystem check. -/
theorem confirmed_checked_and_monotone :
    (∀ (fsE : Str → Bool) (d : FileDataM),
      (ioOutputConfirm fsE d).confirmed = true →
      d.confirmed = true ∨ fsE d.abspath = true) ∧
    (∀ (fsE : Str → Bool) (d : FileDataM),
      d.confirmed = true → (ioOutputConfirm fsE d).confirmed = true) ∧
    (∀ (fsE : Str → Bool) (cf rec : Bool) (d d2 : FileDataM),
      importConfirm fsE true cf rec d = some d2 → d2.confirmed = true →
      d.confirmed = true ∨ fsE d.abspath = true) ∧
    (∀ (fsE : Str → Bool) (chk rec : Bool) (d d2 : FileDataM),
      importConfirm fsE chk true rec d = some d2 → d2.confirmed = true →
      d.confirmed = true ∨ fsE d.abspath = true) ∧
    (∀ (fsE : Str → Bool) (chk cf rec : Bool) (d d2 : FileDataM),
      importConfirm fsE chk cf rec d = some d2 → d.confirmed = true →
      d2.confirmed = true) := by
  refine ⟨?_, ?_, ?_, ?_, ?_⟩
  · intro fsE d h
    by_cases hf : fsE d.abspath = true
    · exact Or.inr hf
    · left
      simpa [ioOutputConfirm, hf] using h
  · intro fsE d h
    by_cases hf : fsE d.abspath = true <;>
      simp [ioOutputConfirm, confirmData, hf, h]
  · intro fsE cf rec d d2 h h2
    by_cases hf : fsE d.abspath = true
    · exact Or.inr hf
    · left
      cases cf <;> cases rec <;>
        simp_all [importConfirm, confirmData, hf]
  · intro fsE chk rec d d2 h h2
    by_cases hf : fsE d.abspath = true
    · exact Or.inr hf
    · left
      simp_all [importConfirm, confirmData, hf]
  · intro fsE chk cf rec d d2 h h2
    cases chk <;> cases cf <;> cases rec <;>
      by_cases hf : fsE d.abspath = true <;>
        simp_all [importConfirm, confirmData, hf] <;>
          exact h ▸ rfl

/-- Witness for C8 (amended) at a concrete confirmed file. -/
theorem confirmed_checked_and_monotone_witness :
    ((⟨"/x".toList, true⟩ : FileDataM).confirmed = true ∨
      (fun _ => true : Str → Bool) (⟨"/x".toList, true⟩ : FileDataM).abspath = true) ∧
    (ioOutputConfirm (fun _ => true) ⟨"/x".toList, true⟩).confirmed = true ∧
    (⟨"/y".toList, true⟩ : FileDataM).confirmed = true :=
  ⟨confirmed_checked_and_monotone.1 (fun _ => true) ⟨"/x".toList, true⟩ rfl,
    confirmed_checked_and_monotone.2.1 (fun _ => true) ⟨"/x".toList, true⟩ rfl,
    confirmed_checked_and_monotone.2.2.2.2 (fun _ => true) true false true
      ⟨"/y".toList, true⟩ ⟨"/y".toList, true⟩ rfl rfl⟩

/-- C9: `InstanceData` construction resolves its owner with priority
explicit bundle > sibling's bundle > explicit instance > sibling's
instance, and any combination whose instances disagree (bundle vs
instance, sibling vs instance, sibling vs bundle) fails fatally at
construction (a raised `AssertionError`, `none`) instead of being
silently overridden. -/
theorem instanceData_owner_resolution :
    (∀ b : BundleM, resolveOwner (some b) none none = some (.viaBundle b)) ∧
    (∀ (d : SiblingM) (db : BundleM), d.bnd = some db →
      resolveOwner none none (some d) = some (.viaBundle db)) ∧
    (∀ i : Nat, resolveOwner none (some i) none = some (.viaInstance i)) ∧
    (∀ (d : SiblingM) (i : Nat), d.bnd = none → d.inst = some i →
      resolveOwner none none (some d) = some (.viaInstance i)) ∧
    (∀ (b : BundleM) (i : Nat), b.inst = i →
      resolveOwner (some b) (some i) none = some (.viaBundle b)) ∧
    (∀ (d : SiblingM) (db : BundleM) (i : Nat),
      d.bnd = some db → d.inst = some i →
      resolveOwner none (some i) (some d) = some (.viaBundle db)) ∧
    (∀ (d : SiblingM) (i : Nat), d.bnd = none → d.inst = some i →
      resolveOwner none (some i) (some d) = some (.viaInstance i)) ∧
    (∀ (b : BundleM) (i : Nat), b.inst ≠ i →
      resolveOwner (some b) (some i) none = none) ∧
    (∀ (d : SiblingM) (i j : Nat), d.inst = some j → j ≠ i →
      resolveOwner none (some i) (some d) = none) ∧
    (∀ (d : SiblingM) (b : BundleM) (j : Nat), d.inst = some j → j ≠ b.inst →
      resolveOwner (some b) none (some d) = none) := by
  refine ⟨?_, ?_, ?_, ?_, ?_, ?_, ?_, ?_, ?_, ?_⟩
  · intro b; rfl
  · intro d db h
    obtain ⟨di, dbnd⟩ := d
    cases h
    rfl
  · intro i; rfl
  · intro d i hb hi
    obtain ⟨di, dbnd⟩ := d
    cases hb; cases hi
    rfl
  · intro b i h
    subst h
    simp [resolveOwner]
  · intro d db i hb hi
    obtain ⟨di, dbnd⟩ := d
    cases hb; cases hi
    simp [resolveOwner]
  · intro d i hb hi
    obtain ⟨di, dbnd⟩ := d
    cases hb; cases hi
    simp [resolveOwner]
  · intro b i h
    simp [resolveOwner, h]
  · intro d i j hj hne
    obtain ⟨di, dbnd⟩ := d
    cases hj
    cases dbnd <;> simp [resolveOwner, hne]
  · intro d b j hj hne
    obtain ⟨di, dbnd⟩ := d
    cases hj
    cases dbnd <;> simp [resolveOwner, hne]

/-- Witness for C9 at concrete bundles, siblings and instances. -/
theorem instanceData_owner_resolution_witness :
    resolveOwner (some ⟨7⟩) none none = some (.viaBundle ⟨7⟩) ∧
    resolveOwner none none (some ⟨some 7, some ⟨7⟩⟩) = some (.viaBundle ⟨7⟩) ∧
    resolveOwner none (some 7) none = some (.viaInstance 7) ∧
    resolveOwner none none (some ⟨some 7, none⟩) = some (.viaInstance 7) ∧
    resolveOwner (some ⟨7⟩) (some 7) none = some (.viaBundle ⟨7⟩) ∧
    resolveOwner none (some 7) (some ⟨some 7, some ⟨7⟩⟩) = some (.viaBundle ⟨7⟩) ∧
    resolveOwner none (some 7) (some ⟨some 7, none⟩) = some (.viaInstance 7) ∧
    resolveOwner (some ⟨7⟩) (some 8) none = none ∧
    resolveOwner none (some 8) (some ⟨some 7, none⟩) = none ∧
    resolveOwner (some ⟨8⟩) none (some ⟨some 7, none⟩) = none :=
  ⟨instanceData_owner_resolution.1 ⟨7⟩,
    instanceData_owner_resolution.2.1 ⟨some 7, some ⟨7⟩⟩ ⟨7⟩ rfl,
    instanceData_owner_resolution.2.2.1 7,
    instanceData_owner_resolution.2.2.2.1 ⟨some 7, none⟩ 7 rfl rfl,
    instanceData_owner_resolution.2.2.2.2.1 ⟨7⟩ 7 rfl,
    instanceData_owner_resolution.2.2.2.2.2.1 ⟨some 7, some ⟨7⟩⟩ ⟨7⟩ 7 rfl rfl,
    instanceData_owner_resolution.2.2.2.2.2.2.1 ⟨some 7, none⟩ 7 rfl rfl,
    instanceData_owner_resolution.2.2.2.2.2.2.2.1 ⟨7⟩ 8 (by decide),
    instanceData_owner_resolution.2.2.2.2.2.2.2.2.1 ⟨some 7, none⟩ 8 7 rfl (by decide),
    instanceData_owner_resolution.2.2.2.2.2.2.2.2.2 ⟨some 7, none⟩ ⟨8⟩ 7 rfl (by decide)⟩

theorem storeGet_set_self {σ : Store} {i : Nat} {d : Dict} (h : i < σ.length) :
    storeGet (storeSet σ i d) i = d := by
  simp [storeGet, storeSet, List.get?_eq_getElem?, List.getElem?_set_self h]

theorem storeGet_set_ne {σ : Store} {i j : Nat} {d : Dict} (h : i ≠ j) :
    storeGet (storeSet σ i d) j = storeGet σ j := by
  simp [storeGet, storeSet, List.get?_eq_getElem?, List.getElem?_set_ne h]

theorem storeGet_append_left {σ τ : Store} {i : Nat} (h : i < σ.length) :
    storeGet (σ ++ τ) i = storeGet σ i := by
  simp [storeGet, List.get?_eq_getElem?, List.getElem?_append, h]

theorem storeGet_concat_self {σ : Store} {d : Dict} :
    storeGet (σ ++ [d]) σ.length = d := by
  simp [storeGet, List.get?_eq_getElem?, List.getElem?_concat_length]

theorem metaExtList_go (self : Nat) :
    ∀ (js : List Nat) (σ2 : Store), self < σ2.length → (∀ j ∈ js, j ≠ self) →
    storeGet (js.foldl
        (fun σ4 j => storeSet σ4 self (dictUpdate (storeGet σ4 self) (storeGet σ4 j))) σ2)
          self =
      js.foldl (fun acc j => dictUpdate acc (storeGet σ2 j)) (storeGet σ2 self) ∧
    (∀ k, k ≠ self →
      storeGet (js.foldl
        (fun σ4 j => storeSet σ4 self (dictUpdate (storeGet σ4 self) (storeGet σ4 j))) σ2)
          k = storeGet σ2 k) ∧
    (js.foldl
        (fun σ4 j => storeSet σ4 self (dictUpdate (storeGet σ4 self) (storeGet σ4 j)))
          σ2).length = σ2.length := by
  intro js
  induction js with
  | nil => intro σ2 _ _; exact ⟨rfl, fun k _ => rfl, rfl⟩
  | cons j t ih =>
    intro σ2 hlen hne
    have hj : j ≠ self := hne j (List.mem_cons_self j t)
    have hlen' : self < (storeSet σ2 self
        (dictUpdate (storeGet σ2 self) (storeGet σ2 j))).length := by
      simpa [storeSet] using hlen
    have hget_self : storeGet (storeSet σ2 self
        (dictUpdate (storeGet σ2 self) (storeGet σ2 j))) self =
        dictUpdate (storeGet σ2 self) (storeGet σ2 j) := storeGet_set_self hlen
    have hget_k : ∀ k, k ≠ self → storeGet (storeSet σ2 self
        (dictUpdate (storeGet σ2 self) (storeGet σ2 j))) k = storeGet σ2 k :=
      fun k hk => storeGet_set_ne (fun he => hk he.symm)
    obtain ⟨ih1, ih2, ih3⟩ := ih
      (storeSet σ2 self (dictUpdate (storeGet σ2 self) (storeGet σ2 j)))
      hlen' (fun x hx => hne x (List.mem_cons_of_mem j hx))
    refine ⟨?_, ?_, ?_⟩
    · rw [List.foldl_cons, ih1, List.foldl_cons, hget_self]
      exact List.foldl_ext _ _ _
        (fun a x hx => by rw [hget_k x (hne x (List.mem_cons_of_mem j hx))])
    · intro k hk
      rw [List.foldl_cons, ih2 k hk, hget_k k hk]
    · rw [List.foldl_cons, ih3]
      simp [storeSet]

/-- C10: `Meta.ext` is an in-place right-biased merge: for every receiver
`A` and argument `B` (a dict, a `Meta`, or a list of `Meta`s), after
`A.ext(B)` the receiver's own mapping equals the right-biased union of
`A`'s previous mapping with `B`'s entries, the call returns the receiver
itself, and no other object changes — whereas `A + B` allocates a fresh
`Meta` holding the union and leaves the mappings of both operands (and
every other stored object) unchanged. -/
theorem metaExt_inplace_metaAdd_pure :
    (∀ (σ : Store) (self : Nat) (arg : ExtArg), (metaExt σ self arg).2 = self) ∧
    (∀ (σ : Store) (self : Nat) (arg : ExtArg), self < σ.length → argAvoids self arg →
      storeGet (metaExt σ self arg).1 self = extResultSpec σ (storeGet σ self) arg) ∧
    (∀ (σ : Store) (self : Nat) (arg : ExtArg) (k : Nat), self < σ.length →
      argAvoids self arg → k ≠ self →
      storeGet (metaExt σ self arg).1 k = storeGet σ k) ∧
    (∀ (σ : Store) (a : Nat) (o : ExtArg), (metaAdd σ a o).2 = σ.length) ∧
    (∀ (σ : Store) (a : Nat) (o : ExtArg), a < σ.length → argRefsValid σ o →
      storeGet (metaAdd σ a o).1 (metaAdd σ a o).2 = extResultSpec σ (storeGet σ a) o) ∧
    (∀ (σ : Store) (a : Nat) (o : ExtArg) (k : Nat), a < σ.length → argRefsValid σ o →
      k < σ.length → storeGet (metaAdd σ a o).1 k = storeGet σ k) := by
  have hret : ∀ (σ : Store) (self : Nat) (arg : ExtArg), (metaExt σ self arg).2 = self := by
    intro σ self arg; cases arg <;> rfl
  have hval : ∀ (σ : Store) (self : Nat) (arg : ExtArg), self < σ.length →
      argAvoids self arg →
      storeGet (metaExt σ self arg).1 self = extResultSpec σ (storeGet σ self) arg := by
    intro σ self arg hlen havd
    cases arg with
    | dict d => exact storeGet_set_self hlen
    | metaRef j => exact storeGet_set_self hlen
    | metaList js =>
      exact (metaExtList_go self js σ hlen (fun j hj he => havd (he ▸ hj))).1
  have hframe : ∀ (σ : Store) (self : Nat) (arg : ExtArg) (k : Nat), self < σ.length →
      argAvoids self arg → k ≠ self →
      storeGet (metaExt σ self arg).1 k = storeGet σ k := by
    intro σ self arg k hlen havd hk
    cases arg with
    | dict d => exact storeGet_set_ne (fun he => hk he.symm)
    | metaRef j => exact storeGet_set_ne (fun he => hk he.symm)
    | metaList js =>
      exact (metaExtList_go self js σ hlen (fun j hj he => havd (he ▸ hj))).2.1 k hk
  have haddret : ∀ (σ : Store) (a : Nat) (o : ExtArg), (metaAdd σ a o).2 = σ.length := by
    intro σ a o
    cases o <;> rfl
  have hstage : ∀ (σ : Store) (a : Nat), a < σ.length →
      (metaExt (σ ++ [[]]) σ.length (.metaRef a)).1 =
        storeSet (σ ++ [[]]) σ.length (storeGet σ a) := by
    intro σ a ha
    simp only [metaExt, storeGet_concat_self, storeGet_append_left ha, dictUpdate_nil]
  have hstagelen : ∀ (σ : Store) (a : Nat) (d : Dict),
      (storeSet (σ ++ [[]]) σ.length d).length = σ.length + 1 := by
    intro σ a d; simp [storeSet]
  have hstageget : ∀ (σ : Store) (a : Nat) (d : Dict),
      storeGet (storeSet (σ ++ [[]]) σ.length d) σ.length = d := by
    intro σ a d
    exact storeGet_set_self (by simp)
  have hstageget2 : ∀ (σ : Store) (a : Nat) (d : Dict) (k : Nat), k < σ.length →
      storeGet (storeSet (σ ++ [[]]) σ.length d) k = storeGet σ k := by
    intro σ a d k hk
    rw [storeGet_set_ne (Nat.ne_of_gt hk), storeGet_append_left hk]
  refine ⟨hret, hval, hframe, haddret, ?_, ?_⟩
  · intro σ a o ha hvalid
    rw [haddret σ a o]
    show storeGet (metaExt (metaExt (σ ++ [[]]) σ.length (.metaRef a)).1
      (metaExt (σ ++ [[]]) σ.length (.metaRef a)).2 o).1 σ.length = _
    rw [hret, hstage σ a ha]
    have hlen2 : σ.length < (storeSet (σ ++ [[]]) σ.length (storeGet σ a)).length := by
      rw [hstagelen σ a]
      exact Nat.lt_succ_self _
    have havd : argAvoids σ.length o := by
      cases o with
      | dict d => exact trivial
      | metaRef j => exact trivial
      | metaList js =>
        intro hmem
        exact absurd (hvalid σ.length hmem) (Nat.lt_irrefl _)
    rw [hval _ σ.length o hlen2 havd, hstageget σ a]
    cases o with
    | dict d => rfl
    | metaRef j =>
      simp only [extResultSpec]
      rw [hstageget2 σ a _ j hvalid]
    | metaList js =>
      simp only [extResultSpec]
      exact List.foldl_ext _ _ _
        (fun acc x hx => by rw [hstageget2 σ a _ x (hvalid x hx)])
  · intro σ a o k ha hvalid hk
    show storeGet (metaExt (metaExt (σ ++ [[]]) σ.length (.metaRef a)).1
      (metaExt (σ ++ [[]]) σ.length (.metaRef a)).2 o).1 k = _
    rw [hret, hstage σ a ha]
    have hlen2 : σ.length < (storeSet (σ ++ [[]]) σ.length (storeGet σ a)).length := by
      rw [hstagelen σ a]
      exact Nat.lt_succ_self _
    have havd : argAvoids σ.length o := by
      cases o with
      | dict d => exact trivial
      | metaRef j => exact trivial
      | metaList js =>
        intro hmem
        exact absurd (hvalid σ.length hmem) (Nat.lt_irrefl _)
    rw [hframe _ σ.length o k hlen2 havd (Nat.ne_of_lt hk)]
    exact hstageget2 σ a _ k hk

/-- Witness for C10 at a concrete two-object store. -/
theorem metaExt_inplace_metaAdd_pure_witness :
    (metaExt [[("a".toList, "1".toList)], [("b".toList, "2".toList)]] 0 (.metaRef 1)).2
        = 0 ∧
    storeGet (metaExt [[("a".toList, "1".toList)], [("b".toList, "2".toList)]] 0
        (.metaRef 1)).1 0 =
      extResultSpec [[("a".toList, "1".toList)], [("b".toList, "2".toList)]]
        [("a".toList, "1".toList)] (.metaRef 1) ∧
    (metaAdd [[("a".toList, "1".toList)], [("b".toList, "2".toList)]] 0 (.metaRef 1)).2
        = 2 ∧
    storeGet (metaAdd [[("a".toList, "1".toList)], [("b".toList, "2".toList)]] 0
        (.metaRef 1)).1 0 = [("a".toList, "1".toList)] := by
  refine ⟨metaExt_inplace_metaAdd_pure.1 _ 0 (.metaRef 1),
    metaExt_inplace_metaAdd_pure.2.1 _ 0 (.metaRef 1) (by decide) trivial,
    metaExt_inplace_metaAdd_pure.2.2.2.1 _ 0 (.metaRef 1), ?_⟩
  have := metaExt_inplace_metaAdd_pure.2.2.2.2.2
    [[("a".toList, "1".toList)], [("b".toList, "2".toList)]] 0 (.metaRef 1) 0
    (by decide) (show (1 : Nat) < 2 by decide) (by decide)
  rw [this]
  rfl

end MHubio
